import Mathlib

/-!
Shallow embedding of `src/naive_bayes/naive_bayes_classifier.py`
(class `NaiveBayesClassifier`): the mutable instance state, `train`,
`predict` (direct and log mode) and `accuracy`.

Modelling conventions:
* Python `defaultdict(int)` / `defaultdict(float)` are modelled as
  association lists with a total lookup that returns the default
  (0 resp. 0.0) on a missing key.  Reading a missing key in the source
  only ever inserts the default value, which is unobservable through
  lookups and through the key-set unions the source takes, so the pure
  lookup model is faithful.
* Python float arithmetic is modelled exactly over `ℚ`; `np.log` is
  modelled over `WithBot ℝ` with `np.log 0 = ⊥` (numpy returns `-inf`
  with only a runtime warning, it does not raise).
* Python `ZeroDivisionError` is modelled explicitly: `train` returns its
  final (possibly partially updated) state together with a `raised`
  flag, and `accuracy` returns `Option ℚ` (`none` = the error).
  Execution state at the raise point is kept, because the source
  mutates `self` field by field before the raising statement.
* Python `set` iteration order is unspecified; `self.words` is modelled
  as a duplicate-free list (insertion order).  No settled claim depends
  on the iteration order.
-/

namespace NaiveBayes

/-- Association list with `Nat` values: model of `defaultdict(int)`. -/
abbrev DictN := List (String × Nat)

/-- Association list with `ℚ` values: model of `defaultdict(float)`. -/
abbrev DictQ := List (String × ℚ)

/-- Lookup in a `defaultdict(int)`: missing keys read as 0. -/
def dlookupN : DictN → String → Nat
  | [], _ => 0
  | p :: d, w => if p.1 = w then p.2 else dlookupN d w

/-- Lookup in a `defaultdict(float)`: missing keys read as 0.0. -/
def dlookupQ : DictQ → String → ℚ
  | [], _ => 0
  | p :: d, w => if p.1 = w then p.2 else dlookupQ d w

/-- `d[w] += 1` on a `defaultdict(int)`: update in place, or append a
new key (Python dicts preserve insertion order). -/
def dincr : DictN → String → DictN
  | [], w => [(w, 1)]
  | p :: d, w => if p.1 = w then (p.1, p.2 + 1) :: d else p :: dincr d w

/-- `d[w] = q` on a `defaultdict(float)`. -/
def dsetQ : DictQ → String → ℚ → DictQ
  | [], w, q => [(w, q)]
  | p :: d, w, q => if p.1 = w then (p.1, q) :: d else p :: dsetQ d w q

/-- The keys of a dictionary. -/
def dkeysN (d : DictN) : List String := d.map Prod.fst

/-- The mutable state of a `NaiveBayesClassifier` instance
(`__init__`, lines 32-55 of the source). -/
structure Classifier where
  spam_word_count : DictN
  ham_word_count : DictN
  spam_email_count : Nat
  ham_email_count : Nat
  total_emails : Nat
  p_spam : ℚ
  p_ham : ℚ
  p_word_given_spam : DictQ
  p_word_given_ham : DictQ
  words : List String

/-- A freshly constructed classifier (`__init__`). -/
def init : Classifier :=
  { spam_word_count := []
    ham_word_count := []
    spam_email_count := 0
    ham_email_count := 0
    total_emails := 0
    p_spam := 0
    p_ham := 0
    p_word_given_spam := []
    p_word_given_ham := []
    words := [] }

/-- `sum(1 for label in labels if label == l)`. -/
def countLabel : List String → String → Nat
  | [], _ => 0
  | x :: xs, l => (if x = l then 1 else 0) + countLabel xs l

/-- Number of occurrences of a word in a document. -/
def countW : List String → String → Nat
  | [], _ => 0
  | x :: xs, w => (if x = w then 1 else 0) + countW xs w

/-- `for word in email: d[word] += 1`. -/
def addWords (d : DictN) (email : List String) : DictN :=
  email.foldl dincr d

/-- One iteration of the word-counting loop of `train`
(lines 78-84: `if label == 'spam': ... elif label == 'ham': ...`;
any other label changes neither count). -/
def countStep (d : DictN × DictN) (p : List String × String) : DictN × DictN :=
  if p.2 = "spam" then (addWords d.1 p.1, d.2)
  else if p.2 = "ham" then (d.1, addWords d.2 p.1)
  else d

/-- The Laplace-smoothed probability loop of `train` (lines 92-95):
for each word set
`p_word_given_spam[word] = (spam_word_count[word] + 1) / (spam_email_count + 2)`
and analogously for ham. -/
def smoothLoop (c : Classifier) (ws : List String) : Classifier :=
  ws.foldl (fun c w =>
    { c with
      p_word_given_spam :=
        dsetQ c.p_word_given_spam w
          (((dlookupN c.spam_word_count w : ℚ) + 1) / ((c.spam_email_count : ℚ) + 2))
      p_word_given_ham :=
        dsetQ c.p_word_given_ham w
          (((dlookupN c.ham_word_count w : ℚ) + 1) / ((c.ham_email_count : ℚ) + 2)) }) c

/-- Result of a `train` call: the instance state at the end of the call
(the state reached at the raise point when an exception occurred) and
whether a `ZeroDivisionError` was raised. -/
structure TrainResult where
  state : Classifier
  raised : Bool

/-- The unsmoothed probability loop of `train` (lines 96-99): for each
word set `p_word_given_spam[word] = spam_word_count[word] / spam_email_count`,
then the analogous ham assignment.  Python `int / int` raises
`ZeroDivisionError` when the divisor is 0, so execution stops at the
first division by a zero class count, after the assignments already
made. -/
def unsmoothedLoop : Classifier → List String → TrainResult
  | c, [] => ⟨c, false⟩
  | c, w :: ws =>
    if c.spam_email_count = 0 then ⟨c, true⟩
    else
      let c2 := { c with
        p_word_given_spam :=
          dsetQ c.p_word_given_spam w
            ((dlookupN c.spam_word_count w : ℚ) / (c.spam_email_count : ℚ)) }
      if c2.ham_email_count = 0 then ⟨c2, true⟩
      else
        unsmoothedLoop
          { c2 with
            p_word_given_ham :=
              dsetQ c2.p_word_given_ham w
                ((dlookupN c2.ham_word_count w : ℚ) / (c2.ham_email_count : ℚ)) } ws

/-- `NaiveBayesClassifier.train` (lines 57-99).  Statements are executed
in source order on the mutable state; a `ZeroDivisionError` (empty
input at line 74, or a zero class count in the unsmoothed loop) stops
execution there, keeping the mutations already made. -/
def train (c : Classifier) (emails : List (List String)) (labels : List String)
    (laplace_smoothing : Bool) : TrainResult :=
  let c1 := { c with
    total_emails := emails.length
    spam_email_count := countLabel labels "spam"
    ham_email_count := countLabel labels "ham" }
  if c1.total_emails = 0 then ⟨c1, true⟩
  else
    let c2 := { c1 with
      p_spam := (c1.spam_email_count : ℚ) / (c1.total_emails : ℚ)
      p_ham := (c1.ham_email_count : ℚ) / (c1.total_emails : ℚ) }
    let d := (emails.zip labels).foldl countStep (c2.spam_word_count, c2.ham_word_count)
    let c3 := { c2 with spam_word_count := d.1, ham_word_count := d.2 }
    let c4 := { c3 with words := (dkeysN c3.spam_word_count ++ dkeysN c3.ham_word_count).dedup }
    if laplace_smoothing then ⟨smoothLoop c4 c4.words, false⟩
    else unsmoothedLoop c4 c4.words

/-- The state of `train` just before the conditional-probability loop
(after lines 69-88): counts, priors, word counts and vocabulary are
set; the probability maps are still the ones from before the call.
`train c e l s` runs the probability loop on exactly this state when
`e` is non-empty (see `train_false_eq` and `train_true_eq`). -/
def trainMid (c : Classifier) (emails : List (List String)) (labels : List String) :
    Classifier :=
  { c with
    total_emails := emails.length
    spam_email_count := countLabel labels "spam"
    ham_email_count := countLabel labels "ham"
    p_spam := (countLabel labels "spam" : ℚ) / (emails.length : ℚ)
    p_ham := (countLabel labels "ham" : ℚ) / (emails.length : ℚ)
    spam_word_count :=
      ((emails.zip labels).foldl countStep (c.spam_word_count, c.ham_word_count)).1
    ham_word_count :=
      ((emails.zip labels).foldl countStep (c.spam_word_count, c.ham_word_count)).2
    words :=
      (dkeysN ((emails.zip labels).foldl countStep (c.spam_word_count, c.ham_word_count)).1 ++
        dkeysN ((emails.zip labels).foldl countStep (c.spam_word_count, c.ham_word_count)).2).dedup }

/-- One iteration of the direct-mode scoring loop of `predict`
(lines 137-142): in-vocabulary words multiply both scores, others are
skipped. -/
def directStep (c : Classifier) (p : ℚ × ℚ) (w : String) : ℚ × ℚ :=
  if w ∈ c.words then
    (p.1 * dlookupQ c.p_word_given_spam w, p.2 * dlookupQ c.p_word_given_ham w)
  else p

/-- Direct-mode scores of one email (lines 132-142): start from the
priors and multiply the conditional probability of every in-vocabulary
token occurrence. -/
def directScores (c : Classifier) (email : List String) : ℚ × ℚ :=
  email.foldl (directStep c) (c.p_spam, c.p_ham)

/-- Direct-mode label of one email (lines 143-147): `"spam"` iff the
spam score is strictly greater. -/
def classifyDirect (c : Classifier) (email : List String) : String :=
  if (directScores c email).1 > (directScores c email).2 then "spam" else "ham"

/-- `np.log` on the nonnegative values this program produces:
`np.log 0 = -inf` (with only a runtime warning), `np.log q = log q`
for `q > 0`.  `-inf` is `⊥` of `WithBot ℝ`, whose addition is
`⊥`-absorbing exactly like IEEE `-inf + finite`. -/
noncomputable def extLog (q : ℚ) : WithBot ℝ :=
  if q = 0 then ⊥ else ((Real.log (q : ℝ) : ℝ) : WithBot ℝ)

/-- One iteration of the log-mode scoring loop of `predict`
(lines 121-124). -/
noncomputable def logStep (c : Classifier) (p : WithBot ℝ × WithBot ℝ) (w : String) :
    WithBot ℝ × WithBot ℝ :=
  if w ∈ c.words then
    (p.1 + extLog (dlookupQ c.p_word_given_spam w),
     p.2 + extLog (dlookupQ c.p_word_given_ham w))
  else p

/-- Log-mode scores of one email (lines 116-124): start from the logs
of the priors and add the log of the conditional probability of every
in-vocabulary token occurrence. -/
noncomputable def logScores (c : Classifier) (email : List String) : WithBot ℝ × WithBot ℝ :=
  email.foldl (logStep c) (extLog c.p_spam, extLog c.p_ham)

open Classical in
/-- Log-mode label of one email (lines 126-129). -/
noncomputable def classifyLog (c : Classifier) (email : List String) : String :=
  if (logScores c email).1 > (logScores c email).2 then "spam" else "ham"

/-- `NaiveBayesClassifier.predict` (lines 101-149): one label per input
email, in input order. -/
noncomputable def predict (c : Classifier) (emails : List (List String))
    (prevent_underflow : Bool) : List String :=
  if prevent_underflow then emails.map (classifyLog c)
  else emails.map (classifyDirect c)

/-- The loop of `accuracy` (lines 156-159): number of agreeing
positions of the zipped sequences. -/
def correctCount : List (String × String) → Nat
  | [] => 0
  | x :: xs => (if x.1 = x.2 then 1 else 0) + correctCount xs

/-- `NaiveBayesClassifier.accuracy` (lines 152-161): agreement count
over `zip(y_true, y_pred)` divided by `len(y_true)`; Python raises
`ZeroDivisionError` (modelled as `none`) iff `len(y_true) == 0`. -/
def accuracy (y_true y_pred : List String) : Option ℚ :=
  let correct := correctCount (y_true.zip y_pred)
  if y_true.length = 0 then none
  else some ((correct : ℚ) / (y_true.length : ℚ))

/-- Spec-side spam score, written from the words of the claim: `p_spam`
multiplied by `p_word_given_spam[w]` once per occurrence of each token
`w` of the document that is in the vocabulary. -/
def scoreSpamSpec (c : Classifier) (email : List String) : ℚ :=
  c.p_spam *
    ((email.filter (fun w => decide (w ∈ c.words))).map
      (fun w => dlookupQ c.p_word_given_spam w)).prod

/-- Spec-side ham score, analogous to `scoreSpamSpec`. -/
def scoreHamSpec (c : Classifier) (email : List String) : ℚ :=
  c.p_ham *
    ((email.filter (fun w => decide (w ∈ c.words))).map
      (fun w => dlookupQ c.p_word_given_ham w)).prod

/-- Spec-side label: `"spam"` iff the spam score is strictly greater
than the ham score, otherwise `"ham"`. -/
def classifySpec (c : Classifier) (email : List String) : String :=
  if scoreSpamSpec c email > scoreHamSpec c email then "spam" else "ham"

/-- Total number of occurrences of a word in the spam-labelled
documents of a zipped batch. -/
def spamOcc : List (List String × String) → String → Nat
  | [], _ => 0
  | p :: ps, w => (if p.2 = "spam" then countW p.1 w else 0) + spamOcc ps w

/-- Total number of occurrences of a word in the ham-labelled
documents of a zipped batch. -/
def hamOcc : List (List String × String) → String → Nat
  | [], _ => 0
  | p :: ps, w => (if p.2 = "ham" then countW p.1 w else 0) + hamOcc ps w

/-- Spec-side agreement count of the claim about `accuracy`: the number
of positions `i` below `min (len y_true) (len y_pred)` where the two
sequences agree. -/
def agreeAt (y_true y_pred : List String) : Nat :=
  ((List.range (min y_true.length y_pred.length)).filter
    (fun i => decide (y_true.get? i = y_pred.get? i))).length

/-- The spec scenario model: train on `{"buy","now"} / {"hello","friend"}`
with labels spam/ham, without smoothing. -/
def scenario : TrainResult :=
  train init [["buy", "now"], ["hello", "friend"]] ["spam", "ham"] false

/-- The spec scenario model with Laplace smoothing. -/
def scenarioSmooth : TrainResult :=
  train init [["buy", "now"], ["hello", "friend"]] ["spam", "ham"] true

/-! ### Dictionary lemmas -/

theorem dlookupN_dincr (d : DictN) (w x : String) :
    dlookupN (dincr d w) x = dlookupN d x + (if w = x then 1 else 0) := by
  induction d with
  | nil =>
    by_cases h : w = x <;> simp [dincr, dlookupN, h]
  | cons p d ih =>
    by_cases h : p.1 = w
    · subst h
      by_cases hx : p.1 = x <;> simp [dincr, dlookupN, hx]
    · by_cases hx : p.1 = x
      · have hwx : ¬ w = x := fun hc => h (hx.trans hc.symm)
        have hxw : ¬ x = w := fun hc => hwx hc.symm
        simp [dincr, dlookupN, h, hx, hwx, hxw]
      · simp [dincr, dlookupN, h, hx, ih]

theorem dlookupN_addWords (e : List String) (d : DictN) (x : String) :
    dlookupN (addWords d e) x = dlookupN d x + countW e x := by
  induction e generalizing d with
  | nil => simp [addWords, countW]
  | cons y ys ih =>
    show dlookupN (addWords (dincr d y) ys) x = _
    rw [ih, dlookupN_dincr, countW]
    by_cases h : y = x
    · subst h
      simp [Nat.add_comm, Nat.add_assoc, Nat.add_left_comm]
    · have hx : ¬ x = y := fun hc => h hc.symm
      simp [h, hx]

theorem dlookupQ_dsetQ (d : DictQ) (w x : String) (q : ℚ) :
    dlookupQ (dsetQ d w q) x = if w = x then q else dlookupQ d x := by
  induction d with
  | nil =>
    by_cases h : w = x <;> simp [dsetQ, dlookupQ, h]
  | cons p d ih =>
    by_cases h : p.1 = w
    · subst h
      by_cases hx : p.1 = x <;> simp [dsetQ, dlookupQ, hx]
    · by_cases hx : p.1 = x
      · have hwx : ¬ w = x := fun hc => h (hx.trans hc.symm)
        have hxw : ¬ x = w := fun hc => hwx hc.symm
        simp [dsetQ, dlookupQ, h, hx, hwx, hxw]
      · simp [dsetQ, dlookupQ, h, hx, ih]

theorem countW_eq_zero (e : List String) (w : String) (h : w ∉ e) : countW e w = 0 := by
  induction e with
  | nil => rfl
  | cons x xs ih =>
    have hx : ¬ x = w := fun hc => h (hc ▸ List.mem_cons_self x xs)
    have hw : w ∉ xs := fun hc => h (List.mem_cons_of_mem x hc)
    simp [countW, hx, ih hw]

theorem countW_le_one (e : List String) (w : String) (h : e.Nodup) : countW e w ≤ 1 := by
  induction e with
  | nil => exact Nat.zero_le 1
  | cons x xs ih =>
    rcases List.nodup_cons.1 h with ⟨hx, hxs⟩
    by_cases hw : x = w
    · subst hw
      simp [countW, countW_eq_zero xs x hx]
    · simpa [countW, hw] using ih hxs

theorem countLabel_pos (l : List String) (x : String) (h : x ∈ l) : 0 < countLabel l x := by
  induction l with
  | nil => cases h
  | cons y ys ih =>
    rcases List.mem_cons.1 h with h | h
    · subst h
      simp [countLabel]
    · have := ih h
      by_cases hy : y = x <;> (simp [countLabel, hy]; try omega)

theorem countLabel_spam_ham (l : List String)
    (h : ∀ x ∈ l, x = "spam" ∨ x = "ham") :
    countLabel l "spam" + countLabel l "ham" = l.length := by
  induction l with
  | nil => rfl
  | cons y ys ih =>
    have hy := h y (List.mem_cons_self y ys)
    have hys : ∀ x ∈ ys, x = "spam" ∨ x = "ham" :=
      fun x hx => h x (List.mem_cons_of_mem y hx)
    have hih := ih hys
    rcases hy with hy | hy <;> subst hy <;> simp +decide [countLabel] <;> omega

/-! ### Word-counting loop lemmas -/

theorem fold_countStep_fst (ps : List (List String × String)) (d : DictN × DictN)
    (x : String) :
    dlookupN (ps.foldl countStep d).1 x = dlookupN d.1 x + spamOcc ps x := by
  induction ps generalizing d with
  | nil => simp [spamOcc]
  | cons p ps ih =>
    rw [List.foldl_cons, ih, spamOcc]
    by_cases hs : p.2 = "spam"
    · simp [countStep, hs, dlookupN_addWords, Nat.add_assoc]
    · by_cases hh : p.2 = "ham" <;> simp [countStep, hs, hh]

theorem fold_countStep_snd (ps : List (List String × String)) (d : DictN × DictN)
    (x : String) :
    dlookupN (ps.foldl countStep d).2 x = dlookupN d.2 x + hamOcc ps x := by
  induction ps generalizing d with
  | nil => simp [hamOcc]
  | cons p ps ih =>
    rw [List.foldl_cons, ih, hamOcc]
    by_cases hs : p.2 = "spam"
    · have hh : ¬ p.2 = "ham" := by rw [hs]; decide
      simp [countStep, hs, hh]
    · by_cases hh : p.2 = "ham"
      · simp [countStep, hs, hh, dlookupN_addWords, Nat.add_assoc]
      · simp [countStep, hs, hh]

theorem spamOcc_le_countLabel (e : List (List String)) (l : List String) (w : String)
    (h : ∀ d ∈ e, d.Nodup) :
    spamOcc (e.zip l) w ≤ countLabel l "spam" := by
  induction e generalizing l with
  | nil => simp [spamOcc]
  | cons d ds ih =>
    cases l with
    | nil => simp [spamOcc]
    | cons x xs =>
      have hd : d.Nodup := h d (List.mem_cons_self d ds)
      have hds : ∀ d ∈ ds, List.Nodup d := fun d hdm => h d (List.mem_cons_of_mem _ hdm)
      rw [List.zip_cons_cons, spamOcc, countLabel]
      by_cases hx : x = "spam"
      · simp only [hx, if_pos rfl]
        exact Nat.add_le_add (countW_le_one d w hd) (ih xs hds)
      · simp only [hx, if_neg hx]
        simpa using ih xs hds

theorem hamOcc_le_countLabel (e : List (List String)) (l : List String) (w : String)
    (h : ∀ d ∈ e, d.Nodup) :
    hamOcc (e.zip l) w ≤ countLabel l "ham" := by
  induction e generalizing l with
  | nil => simp [hamOcc]
  | cons d ds ih =>
    cases l with
    | nil => simp [hamOcc]
    | cons x xs =>
      have hd : d.Nodup := h d (List.mem_cons_self d ds)
      have hds : ∀ d ∈ ds, List.Nodup d := fun d hdm => h d (List.mem_cons_of_mem _ hdm)
      rw [List.zip_cons_cons, hamOcc, countLabel]
      by_cases hx : x = "ham"
      · simp only [hx, if_pos rfl]
        exact Nat.add_le_add (countW_le_one d w hd) (ih xs hds)
      · simp only [hx, if_neg hx]
        simpa using ih xs hds

theorem spamOcc_eq_zero (ps : List (List String × String)) (w : String)
    (h : ∀ p ∈ ps, p.2 = "spam" → w ∉ p.1) : spamOcc ps w = 0 := by
  induction ps with
  | nil => rfl
  | cons p ps ih =>
    have hp := h p (List.mem_cons_self p ps)
    have hps : ∀ q ∈ ps, q.2 = "spam" → w ∉ q.1 :=
      fun q hq => h q (List.mem_cons_of_mem p hq)
    by_cases hs : p.2 = "spam"
    · simp [spamOcc, hs, countW_eq_zero p.1 w (hp hs), ih hps]
    · simp [spamOcc, hs, ih hps]

theorem hamOcc_eq_zero (ps : List (List String × String)) (w : String)
    (h : ∀ p ∈ ps, p.2 = "ham" → w ∉ p.1) : hamOcc ps w = 0 := by
  induction ps with
  | nil => rfl
  | cons p ps ih =>
    have hp := h p (List.mem_cons_self p ps)
    have hps : ∀ q ∈ ps, q.2 = "ham" → w ∉ q.1 :=
      fun q hq => h q (List.mem_cons_of_mem p hq)
    by_cases hs : p.2 = "ham"
    · simp [hamOcc, hs, countW_eq_zero p.1 w (hp hs), ih hps]
    · simp [hamOcc, hs, ih hps]

/-! ### Probability-loop lemmas -/

theorem smoothLoop_fields (ws : List String) (c : Classifier) :
    (smoothLoop c ws).spam_word_count = c.spam_word_count ∧
    (smoothLoop c ws).ham_word_count = c.ham_word_count ∧
    (smoothLoop c ws).spam_email_count = c.spam_email_count ∧
    (smoothLoop c ws).ham_email_count = c.ham_email_count ∧
    (smoothLoop c ws).total_emails = c.total_emails ∧
    (smoothLoop c ws).p_spam = c.p_spam ∧
    (smoothLoop c ws).p_ham = c.p_ham ∧
    (smoothLoop c ws).words = c.words := by
  induction ws generalizing c with
  | nil => exact ⟨rfl, rfl, rfl, rfl, rfl, rfl, rfl, rfl⟩
  | cons w ws ih => simpa [smoothLoop] using ih _

theorem smoothLoop_lookup_spam (ws : List String) (c : Classifier) (x : String) :
    dlookupQ (smoothLoop c ws).p_word_given_spam x =
      if x ∈ ws then
        ((dlookupN c.spam_word_count x : ℚ) + 1) / ((c.spam_email_count : ℚ) + 2)
      else dlookupQ c.p_word_given_spam x := by
  induction ws generalizing c with
  | nil => simp [smoothLoop]
  | cons w ws ih =>
    show dlookupQ (smoothLoop _ ws).p_word_given_spam x = _
    rw [ih]
    by_cases hx : x ∈ ws
    · simp [hx]
    · by_cases hw : x = w
      · subst hw
        simp [hx, dlookupQ_dsetQ]
      · have hwx : ¬ w = x := fun hc => hw hc.symm
        simp [hx, hw, dlookupQ_dsetQ, hwx]

theorem smoothLoop_lookup_ham (ws : List String) (c : Classifier) (x : String) :
    dlookupQ (smoothLoop c ws).p_word_given_ham x =
      if x ∈ ws then
        ((dlookupN c.ham_word_count x : ℚ) + 1) / ((c.ham_email_count : ℚ) + 2)
      else dlookupQ c.p_word_given_ham x := by
  induction ws generalizing c with
  | nil => simp [smoothLoop]
  | cons w ws ih =>
    show dlookupQ (smoothLoop _ ws).p_word_given_ham x = _
    rw [ih]
    by_cases hx : x ∈ ws
    · simp [hx]
    · by_cases hw : x = w
      · subst hw
        simp [hx, dlookupQ_dsetQ]
      · have hwx : ¬ w = x := fun hc => hw hc.symm
        simp [hx, hw, dlookupQ_dsetQ, hwx]

theorem unsmoothedLoop_fields (ws : List String) (c : Classifier) :
    (unsmoothedLoop c ws).state.spam_word_count = c.spam_word_count ∧
    (unsmoothedLoop c ws).state.ham_word_count = c.ham_word_count ∧
    (unsmoothedLoop c ws).state.spam_email_count = c.spam_email_count ∧
    (unsmoothedLoop c ws).state.ham_email_count = c.ham_email_count ∧
    (unsmoothedLoop c ws).state.total_emails = c.total_emails ∧
    (unsmoothedLoop c ws).state.p_spam = c.p_spam ∧
    (unsmoothedLoop c ws).state.p_ham = c.p_ham ∧
    (unsmoothedLoop c ws).state.words = c.words := by
  induction ws generalizing c with
  | nil => exact ⟨rfl, rfl, rfl, rfl, rfl, rfl, rfl, rfl⟩
  | cons w ws ih =>
    by_cases hs : c.spam_email_count = 0
    · simp [unsmoothedLoop, hs]
    · by_cases hh : c.ham_email_count = 0
      · simp [unsmoothedLoop, hs, hh]
      · simpa [unsmoothedLoop, hs, hh] using ih _

theorem unsmoothedLoop_ok (ws : List String) (c : Classifier)
    (hs : c.spam_email_count ≠ 0) (hh : c.ham_email_count ≠ 0) :
    (unsmoothedLoop c ws).raised = false ∧
    ∀ x : String,
      dlookupQ (unsmoothedLoop c ws).state.p_word_given_spam x =
        (if x ∈ ws then
          (dlookupN c.spam_word_count x : ℚ) / (c.spam_email_count : ℚ)
        else dlookupQ c.p_word_given_spam x) ∧
      dlookupQ (unsmoothedLoop c ws).state.p_word_given_ham x =
        (if x ∈ ws then
          (dlookupN c.ham_word_count x : ℚ) / (c.ham_email_count : ℚ)
        else dlookupQ c.p_word_given_ham x) := by
  induction ws generalizing c with
  | nil => simp [unsmoothedLoop]
  | cons w ws ih =>
    have step :
        unsmoothedLoop c (w :: ws) =
          unsmoothedLoop
            { c with
              p_word_given_spam :=
                dsetQ c.p_word_given_spam w
                  ((dlookupN c.spam_word_count w : ℚ) / (c.spam_email_count : ℚ)),
              p_word_given_ham :=
                dsetQ c.p_word_given_ham w
                  ((dlookupN c.ham_word_count w : ℚ) / (c.ham_email_count : ℚ)) } ws := by
      simp [unsmoothedLoop, hs, hh]
    rw [step]
    rcases ih
        { c with
          p_word_given_spam :=
            dsetQ c.p_word_given_spam w
              ((dlookupN c.spam_word_count w : ℚ) / (c.spam_email_count : ℚ)),
          p_word_given_ham :=
            dsetQ c.p_word_given_ham w
              ((dlookupN c.ham_word_count w : ℚ) / (c.ham_email_count : ℚ)) }
        hs hh with ⟨hr, hlook⟩
    refine ⟨hr, fun x => ?_⟩
    rcases hlook x with ⟨h1, h2⟩
    rw [h1, h2]
    by_cases hx : x ∈ ws
    · simp [hx]
    · by_cases hw : x = w
      · subst hw
        simp [hx, dlookupQ_dsetQ]
      · have hwx : ¬ w = x := fun hc => hw hc.symm
        simp [hx, hw, dlookupQ_dsetQ, hwx]

/-! ### `train` field lemmas -/

theorem train_false_eq (c : Classifier) (e : List (List String)) (l : List String)
    (h0 : ¬ e.length = 0) :
    train c e l false = unsmoothedLoop (trainMid c e l) (trainMid c e l).words := by
  simp [train, trainMid, h0]

theorem train_true_eq (c : Classifier) (e : List (List String)) (l : List String)
    (h0 : ¬ e.length = 0) :
    train c e l true = ⟨smoothLoop (trainMid c e l) (trainMid c e l).words, false⟩ := by
  simp [train, trainMid, h0]

theorem train_total (c : Classifier) (e : List (List String)) (l : List String) (s : Bool) :
    (train c e l s).state.total_emails = e.length := by
  by_cases h0 : e.length = 0
  · simp [train, h0]
  · cases s
    · simp [train, h0, unsmoothedLoop_fields]
    · simp [train, h0, smoothLoop_fields]

theorem train_sec (c : Classifier) (e : List (List String)) (l : List String) (s : Bool) :
    (train c e l s).state.spam_email_count = countLabel l "spam" := by
  by_cases h0 : e.length = 0
  · simp [train, h0]
  · cases s
    · simp [train, h0, unsmoothedLoop_fields]
    · simp [train, h0, smoothLoop_fields]

theorem train_hec (c : Classifier) (e : List (List String)) (l : List String) (s : Bool) :
    (train c e l s).state.ham_email_count = countLabel l "ham" := by
  by_cases h0 : e.length = 0
  · simp [train, h0]
  · cases s
    · simp [train, h0, unsmoothedLoop_fields]
    · simp [train, h0, smoothLoop_fields]

theorem train_p_spam (c : Classifier) (e : List (List String)) (l : List String) (s : Bool)
    (h : e ≠ []) :
    (train c e l s).state.p_spam = (countLabel l "spam" : ℚ) / (e.length : ℚ) := by
  have h0 : ¬ e.length = 0 := fun hc => h (List.length_eq_zero.1 hc)
  cases s
  · simp [train, h0, unsmoothedLoop_fields]
  · simp [train, h0, smoothLoop_fields]

theorem train_p_ham (c : Classifier) (e : List (List String)) (l : List String) (s : Bool)
    (h : e ≠ []) :
    (train c e l s).state.p_ham = (countLabel l "ham" : ℚ) / (e.length : ℚ) := by
  have h0 : ¬ e.length = 0 := fun hc => h (List.length_eq_zero.1 hc)
  cases s
  · simp [train, h0, unsmoothedLoop_fields]
  · simp [train, h0, smoothLoop_fields]

theorem train_swc (c : Classifier) (e : List (List String)) (l : List String) (s : Bool)
    (x : String) :
    dlookupN (train c e l s).state.spam_word_count x =
      dlookupN c.spam_word_count x + spamOcc (e.zip l) x := by
  by_cases h0 : e.length = 0
  · have he : e = [] := List.length_eq_zero.1 h0
    subst he
    simp [train, spamOcc]
  · cases s
    · simp [train, h0, unsmoothedLoop_fields, fold_countStep_fst]
    · simp [train, h0, smoothLoop_fields, fold_countStep_fst]

theorem train_hwc (c : Classifier) (e : List (List String)) (l : List String) (s : Bool)
    (x : String) :
    dlookupN (train c e l s).state.ham_word_count x =
      dlookupN c.ham_word_count x + hamOcc (e.zip l) x := by
  by_cases h0 : e.length = 0
  · have he : e = [] := List.length_eq_zero.1 h0
    subst he
    simp [train, hamOcc]
  · cases s
    · simp [train, h0, unsmoothedLoop_fields, fold_countStep_snd]
    · simp [train, h0, smoothLoop_fields, fold_countStep_snd]

/-! ### Direct-mode prediction lemmas -/

theorem foldl_directStep (c : Classifier) (e : List String) :
    ∀ a b : ℚ,
      e.foldl (directStep c) (a, b) =
        (a * ((e.filter (fun w => decide (w ∈ c.words))).map
            (fun w => dlookupQ c.p_word_given_spam w)).prod,
         b * ((e.filter (fun w => decide (w ∈ c.words))).map
            (fun w => dlookupQ c.p_word_given_ham w)).prod) := by
  induction e with
  | nil => intro a b; simp
  | cons w ws ih =>
    intro a b
    by_cases hw : w ∈ c.words
    · rw [List.foldl_cons]
      simp only [directStep, if_pos hw]
      rw [ih (a * dlookupQ c.p_word_given_spam w) (b * dlookupQ c.p_word_given_ham w)]
      simp [List.filter_cons, hw, mul_assoc]
    · rw [List.foldl_cons]
      simp only [directStep, if_neg hw]
      rw [ih]
      simp [List.filter_cons, hw]

theorem directScores_eq (c : Classifier) (e : List String) :
    directScores c e = (scoreSpamSpec c e, scoreHamSpec c e) := by
  rw [directScores, foldl_directStep c e c.p_spam c.p_ham]
  rfl

theorem classifyDirect_eq_spec (c : Classifier) (e : List String) :
    classifyDirect c e = classifySpec c e := by
  rw [classifyDirect, classifySpec, directScores_eq]

/-! ### `accuracy` lemmas -/

theorem correctCount_le (ps : List (String × String)) : correctCount ps ≤ ps.length := by
  induction ps with
  | nil => exact Nat.le_refl 0
  | cons p ps ih =>
    by_cases h : p.1 = p.2 <;> (simp [correctCount, h]; omega)

theorem correctCount_self (l : List String) : correctCount (l.zip l) = l.length := by
  induction l with
  | nil => rfl
  | cons x xs ih =>
    rw [List.zip_cons_cons]
    simp only [correctCount, ih]
    simp [Nat.add_comm]

theorem zip_right_ext (t : List String) :
    ∀ p extra : List String, t.length ≤ p.length → t.zip (p ++ extra) = t.zip p := by
  induction t with
  | nil => intro p extra _; simp
  | cons x xs ih =>
    intro p extra h
    cases p with
    | nil => exact absurd h (by simp)
    | cons y ys =>
      simp only [List.cons_append, List.zip_cons_cons]
      rw [ih ys extra (by simpa using h)]

theorem length_filter_map (f : ℕ → ℕ) (q : ℕ → Bool) (l : List ℕ) :
    ((l.map f).filter q).length = (l.filter (fun x => q (f x))).length := by
  induction l with
  | nil => rfl
  | cons x xs ih =>
    by_cases h : q (f x) <;> simp [List.filter_cons, h, ih]

theorem agreeAt_nil_left (p : List String) : agreeAt [] p = 0 := by
  simp [agreeAt]

theorem agreeAt_nil_right (t : List String) : agreeAt t [] = 0 := by
  simp [agreeAt]

theorem agreeAt_cons (x y : String) (xs ys : List String) :
    agreeAt (x :: xs) (y :: ys) = (if x = y then 1 else 0) + agreeAt xs ys := by
  by_cases h : x = y <;>
    simp [agreeAt, Nat.succ_min_succ, List.range_succ_eq_map, List.filter_cons, h,
      length_filter_map, Nat.add_comm]

theorem agreeAt_eq_correctCount (t : List String) :
    ∀ p : List String, agreeAt t p = correctCount (t.zip p) := by
  induction t with
  | nil => intro p; simp [agreeAt_nil_left, correctCount]
  | cons x xs ih =>
    intro p
    cases p with
    | nil => simp [agreeAt_nil_right, correctCount]
    | cons y ys => rw [List.zip_cons_cons, agreeAt_cons, correctCount, ih ys]

/-! ### Log-mode prediction lemmas -/

theorem extLog_zero : extLog 0 = ⊥ := by
  simp [extLog]

theorem extLog_mul (a b : ℚ) (ha : a ≠ 0) (hb : b ≠ 0) :
    extLog (a * b) = extLog a + extLog b := by
  have hab : a * b ≠ 0 := mul_ne_zero ha hb
  have hca : (a : ℝ) ≠ 0 := Rat.cast_ne_zero.2 ha
  have hcb : (b : ℝ) ≠ 0 := Rat.cast_ne_zero.2 hb
  simp only [extLog, if_neg ha, if_neg hb, if_neg hab]
  rw [← WithBot.coe_add]
  congr 1
  rw [Rat.cast_mul]
  exact Real.log_mul hca hcb

theorem extLog_lt_extLog (a b : ℚ) (ha : 0 < a) (hb : 0 < b) :
    extLog a < extLog b ↔ a < b := by
  simp only [extLog, if_neg (ne_of_gt ha), if_neg (ne_of_gt hb)]
  rw [WithBot.coe_lt_coe]
  rw [Real.log_lt_log_iff (by exact_mod_cast ha) (by exact_mod_cast hb)]
  exact_mod_cast Iff.rfl

theorem foldl_logStep (c : Classifier) (e : List String)
    (hw : ∀ w ∈ c.words,
      0 < dlookupQ c.p_word_given_spam w ∧ 0 < dlookupQ c.p_word_given_ham w) :
    ∀ a b : ℚ, 0 < a → 0 < b →
      e.foldl (logStep c) (extLog a, extLog b) =
        (extLog (e.foldl (directStep c) (a, b)).1,
         extLog (e.foldl (directStep c) (a, b)).2) ∧
      0 < (e.foldl (directStep c) (a, b)).1 ∧ 0 < (e.foldl (directStep c) (a, b)).2 := by
  induction e with
  | nil =>
    intro a b ha hb
    exact ⟨rfl, ha, hb⟩
  | cons w ws ih =>
    intro a b ha hb
    by_cases hmem : w ∈ c.words
    · rcases hw w hmem with ⟨hps, hph⟩
      have ha2 : 0 < a * dlookupQ c.p_word_given_spam w := mul_pos ha hps
      have hb2 : 0 < b * dlookupQ c.p_word_given_ham w := mul_pos hb hph
      have hstep :
          logStep c (extLog a, extLog b) w =
            (extLog (a * dlookupQ c.p_word_given_spam w),
             extLog (b * dlookupQ c.p_word_given_ham w)) := by
        simp only [logStep, if_pos hmem]
        rw [extLog_mul a _ (ne_of_gt ha) (ne_of_gt hps),
          extLog_mul b _ (ne_of_gt hb) (ne_of_gt hph)]
      rw [List.foldl_cons, List.foldl_cons, hstep]
      have hdstep :
          directStep c (a, b) w =
            (a * dlookupQ c.p_word_given_spam w, b * dlookupQ c.p_word_given_ham w) := by
        simp [directStep, hmem]
      rw [hdstep]
      exact ih _ _ ha2 hb2
    · have hstep : logStep c (extLog a, extLog b) w = (extLog a, extLog b) := by
        simp [logStep, hmem]
      have hdstep : directStep c (a, b) w = (a, b) := by
        simp [directStep, hmem]
      rw [List.foldl_cons, List.foldl_cons, hstep, hdstep]
      exact ih a b ha hb

theorem classifyLog_eq_direct (c : Classifier)
    (hs : 0 < c.p_spam) (hh : 0 < c.p_ham)
    (hw : ∀ w ∈ c.words,
      0 < dlookupQ c.p_word_given_spam w ∧ 0 < dlookupQ c.p_word_given_ham w)
    (e : List String) :
    classifyLog c e = classifyDirect c e := by
  rcases foldl_logStep c e hw c.p_spam c.p_ham hs hh with ⟨heq, h1, h2⟩
  rw [classifyLog, classifyDirect, logScores, directScores, heq]
  exact if_congr (extLog_lt_extLog _ _ h2 h1) rfl rfl

theorem foldl_logStep_snd_bot (c : Classifier) (e : List String) :
    ∀ p : WithBot ℝ × WithBot ℝ, p.2 = ⊥ → (e.foldl (logStep c) p).2 = ⊥ := by
  induction e with
  | nil => intro p hp; exact hp
  | cons w ws ih =>
    intro p hp
    rw [List.foldl_cons]
    apply ih
    by_cases hmem : w ∈ c.words
    · simp [logStep, hmem, hp]
    · simp [logStep, hmem, hp]

theorem foldl_logStep_snd_bot_of_zero (c : Classifier) (e : List String) (w : String)
    (hwe : w ∈ e) (hwv : w ∈ c.words) (h0 : dlookupQ c.p_word_given_ham w = 0) :
    ∀ p : WithBot ℝ × WithBot ℝ, (e.foldl (logStep c) p).2 = ⊥ := by
  induction e with
  | nil => cases hwe
  | cons x xs ih =>
    intro p
    rw [List.foldl_cons]
    rcases List.mem_cons.1 hwe with hx | hx
    · apply foldl_logStep_snd_bot
      subst hx
      simp [logStep, hwv, h0, extLog_zero]
    · exact ih hx (logStep c p x)

/-! ### The spec scenario, evaluated -/

theorem scenario_state_eq : scenario.state =
    { spam_word_count := [("buy", 1), ("now", 1)]
      ham_word_count := [("hello", 1), ("friend", 1)]
      spam_email_count := 1
      ham_email_count := 1
      total_emails := 2
      p_spam := 1/2
      p_ham := 1/2
      p_word_given_spam := [("buy", 1), ("now", 1), ("hello", 0), ("friend", 0)]
      p_word_given_ham := [("buy", 0), ("now", 0), ("hello", 1), ("friend", 1)]
      words := ["buy", "now", "hello", "friend"] } := by
  simp +decide [scenario, train, countLabel, countStep, addWords, dincr, dsetQ, dlookupN,
    dlookupQ, dkeysN, unsmoothedLoop, init, List.dedup]

theorem scenarioSmooth_state_eq : scenarioSmooth.state =
    { spam_word_count := [("buy", 1), ("now", 1)]
      ham_word_count := [("hello", 1), ("friend", 1)]
      spam_email_count := 1
      ham_email_count := 1
      total_emails := 2
      p_spam := 1/2
      p_ham := 1/2
      p_word_given_spam := [("buy", 2/3), ("now", 2/3), ("hello", 1/3), ("friend", 1/3)]
      p_word_given_ham := [("buy", 1/3), ("now", 1/3), ("hello", 2/3), ("friend", 2/3)]
      words := ["buy", "now", "hello", "friend"] } := by
  simp +decide [scenarioSmooth, train, countLabel, countStep, addWords, dincr, dsetQ, dlookupN,
    dlookupQ, dkeysN, smoothLoop, init, List.dedup, List.pwFilter, List.foldl]
  norm_num

/-! ### `train` recomputation lemmas (arbitrary prior state) -/

theorem train_words_keys (c : Classifier) (emails : List (List String))
    (labels : List String) (s : Bool) (h0 : ¬ emails.length = 0) :
    (train c emails labels s).state.words =
      (dkeysN (train c emails labels s).state.spam_word_count ++
        dkeysN (train c emails labels s).state.ham_word_count).dedup := by
  cases s
  · have htr := train_false_eq c emails labels h0
    have hf := unsmoothedLoop_fields (trainMid c emails labels).words (trainMid c emails labels)
    rw [htr, hf.2.2.2.2.2.2.2, hf.1, hf.2.1]
    rfl
  · have htr := train_true_eq c emails labels h0
    have hf := smoothLoop_fields (trainMid c emails labels).words (trainMid c emails labels)
    have hstate : (train c emails labels true).state =
        smoothLoop (trainMid c emails labels) (trainMid c emails labels).words := by
      rw [htr]
    rw [hstate, hf.2.2.2.2.2.2.2, hf.1, hf.2.1]
    rfl

theorem train_smooth_lookup (c : Classifier) (emails : List (List String))
    (labels : List String) (h0 : ¬ emails.length = 0) :
    ∀ w ∈ (train c emails labels true).state.words,
      dlookupQ (train c emails labels true).state.p_word_given_spam w =
        ((dlookupN (train c emails labels true).state.spam_word_count w : ℚ) + 1) /
          (((train c emails labels true).state.spam_email_count : ℚ) + 2) ∧
      dlookupQ (train c emails labels true).state.p_word_given_ham w =
        ((dlookupN (train c emails labels true).state.ham_word_count w : ℚ) + 1) /
          (((train c emails labels true).state.ham_email_count : ℚ) + 2) := by
  have htr := train_true_eq c emails labels h0
  have hfields := smoothLoop_fields (trainMid c emails labels).words (trainMid c emails labels)
  have hstate : (train c emails labels true).state =
      smoothLoop (trainMid c emails labels) (trainMid c emails labels).words := by
    rw [htr]
  intro w hw
  rw [hstate, hfields.2.2.2.2.2.2.2] at hw
  constructor
  · rw [hstate, smoothLoop_lookup_spam, if_pos hw, hfields.1, hfields.2.2.1]
  · rw [hstate, smoothLoop_lookup_ham, if_pos hw, hfields.2.1, hfields.2.2.2.1]

theorem train_unsmooth_lookup (c : Classifier) (emails : List (List String))
    (labels : List String) (h0 : ¬ emails.length = 0)
    (hsec : countLabel labels "spam" ≠ 0) (hhec : countLabel labels "ham" ≠ 0) :
    (train c emails labels false).raised = false ∧
    ∀ w ∈ (train c emails labels false).state.words,
      dlookupQ (train c emails labels false).state.p_word_given_spam w =
        (dlookupN (train c emails labels false).state.spam_word_count w : ℚ) /
          ((train c emails labels false).state.spam_email_count : ℚ) ∧
      dlookupQ (train c emails labels false).state.p_word_given_ham w =
        (dlookupN (train c emails labels false).state.ham_word_count w : ℚ) /
          ((train c emails labels false).state.ham_email_count : ℚ) := by
  have htr := train_false_eq c emails labels h0
  have hfields := unsmoothedLoop_fields (trainMid c emails labels).words
    (trainMid c emails labels)
  rcases unsmoothedLoop_ok (trainMid c emails labels).words (trainMid c emails labels)
    hsec hhec with ⟨hr, hlook⟩
  constructor
  · rw [htr]; exact hr
  · intro w hw
    rw [htr] at hw ⊢
    rw [hfields.2.2.2.2.2.2.2] at hw
    rcases hlook w with ⟨h1, h2⟩
    rw [if_pos hw] at h1 h2
    constructor
    · rw [hfields.1, hfields.2.2.1, h1]
    · rw [hfields.2.1, hfields.2.2.2.1, h2]

/-! ### Claim theorems -/

/-- Claim C2: for every trained model and every input sequence of M
documents, `predict` in direct mode returns exactly M labels, in input
order, each `"spam"` or `"ham"`; the label of a document is computed
from the scores `p_spam * ∏ p_word_given_spam[w]` (one factor per
occurrence of each in-vocabulary token, out-of-vocabulary tokens
skipped) and the analogous ham score, and the label is `"spam"` iff the
spam score is strictly greater (ties go to `"ham"`). -/
theorem claim_C2 (c : Classifier) (emails : List (List String)) :
    predict c emails false = emails.map (classifySpec c) ∧
    (predict c emails false).length = emails.length ∧
    ∀ lab ∈ predict c emails false, lab = "spam" ∨ lab = "ham" := by
  have hfun : classifyDirect c = classifySpec c := funext (classifyDirect_eq_spec c)
  have hmap : predict c emails false = emails.map (classifySpec c) := by
    rw [predict]
    simp [hfun]
  refine ⟨hmap, by simp [hmap], ?_⟩
  intro lab hlab
  rw [hmap] at hlab
  rcases List.mem_map.1 hlab with ⟨d, _, rfl⟩
  by_cases h : scoreSpamSpec c d > scoreHamSpec c d
  · left; simp [classifySpec, h]
  · right; simp [classifySpec, h]

/-- Claim C2, witnessed on the spec scenario model and document. -/
theorem claim_C2_witness :
    predict scenario.state [["buy", "now"]] false =
      [["buy", "now"]].map (classifySpec scenario.state) ∧
    (predict scenario.state [["buy", "now"]] false).length = 1 := by
  refine ⟨(claim_C2 scenario.state [["buy", "now"]]).1, ?_⟩
  have h := (claim_C2 scenario.state [["buy", "now"]]).2.1
  simpa using h

/-- Claim C5: after `train` on a non-empty batch of parallel sequences
whose labels are all `"spam"` or `"ham"`, the class counts are the
label counts, they sum to `total_emails = N`, the priors are the exact
class fractions, and the priors sum to 1. -/
theorem claim_C5 (c : Classifier) (emails : List (List String)) (labels : List String)
    (s : Bool) (hne : emails ≠ []) (hlen : labels.length = emails.length)
    (hlab : ∀ x ∈ labels, x = "spam" ∨ x = "ham") :
    (train c emails labels s).state.spam_email_count = countLabel labels "spam" ∧
    (train c emails labels s).state.ham_email_count = countLabel labels "ham" ∧
    (train c emails labels s).state.spam_email_count +
        (train c emails labels s).state.ham_email_count =
      (train c emails labels s).state.total_emails ∧
    (train c emails labels s).state.total_emails = emails.length ∧
    (train c emails labels s).state.p_spam =
      (countLabel labels "spam" : ℚ) / (emails.length : ℚ) ∧
    (train c emails labels s).state.p_ham =
      (countLabel labels "ham" : ℚ) / (emails.length : ℚ) ∧
    (train c emails labels s).state.p_spam + (train c emails labels s).state.p_ham = 1 := by
  have hsum : countLabel labels "spam" + countLabel labels "ham" = emails.length := by
    rw [countLabel_spam_ham labels hlab, hlen]
  have hN : (emails.length : ℚ) ≠ 0 := by
    have : emails.length ≠ 0 := fun hc => hne (List.length_eq_zero.1 hc)
    exact_mod_cast this
  refine ⟨train_sec c emails labels s, train_hec c emails labels s, ?_, ?_, ?_, ?_, ?_⟩
  · rw [train_sec, train_hec, train_total, hsum]
  · exact train_total c emails labels s
  · exact train_p_spam c emails labels s hne
  · exact train_p_ham c emails labels s hne
  · rw [train_p_spam c emails labels s hne, train_p_ham c emails labels s hne,
      div_add_div_same, ← Nat.cast_add, hsum, div_self hN]

/-- Claim C5, witnessed on the spec scenario batch. -/
theorem claim_C5_witness :
    ([["buy", "now"], ["hello", "friend"]] : List (List String)) ≠ [] ∧
    (["spam", "ham"] : List String).length =
      ([["buy", "now"], ["hello", "friend"]] : List (List String)).length ∧
    (∀ x ∈ (["spam", "ham"] : List String), x = "spam" ∨ x = "ham") ∧
    (train init [["buy", "now"], ["hello", "friend"]] ["spam", "ham"] false).state.p_spam +
      (train init [["buy", "now"], ["hello", "friend"]] ["spam", "ham"] false).state.p_ham
      = 1 :=
  ⟨by decide, by decide, by decide,
    (claim_C5 init [["buy", "now"], ["hello", "friend"]] ["spam", "ham"] false
      (by decide) (by decide) (by decide)).2.2.2.2.2.2⟩

/-- Claim C9: on equal-length non-empty inputs, `accuracy` returns the
agreement count divided by the length, a value in `[0, 1]` that is 1 on
identical sequences; on empty inputs it raises a division-by-zero
error (modelled as `none`). -/
theorem claim_C9 (y_true y_pred : List String)
    (hlen : y_true.length = y_pred.length) (hne : y_true ≠ []) :
    accuracy y_true y_pred =
      some ((correctCount (y_true.zip y_pred) : ℚ) / (y_true.length : ℚ)) ∧
    0 ≤ (correctCount (y_true.zip y_pred) : ℚ) / (y_true.length : ℚ) ∧
    (correctCount (y_true.zip y_pred) : ℚ) / (y_true.length : ℚ) ≤ 1 ∧
    (y_true = y_pred → accuracy y_true y_pred = some 1) ∧
    accuracy ([] : List String) [] = none := by
  have h0 : ¬ y_true.length = 0 := fun hc => hne (List.length_eq_zero.1 hc)
  have hpos : (0 : ℚ) < (y_true.length : ℚ) := by
    exact_mod_cast Nat.pos_of_ne_zero h0
  refine ⟨by simp [accuracy, h0], ?_, ?_, ?_, rfl⟩
  · exact div_nonneg (Nat.cast_nonneg _) (Nat.cast_nonneg _)
  · rw [div_le_one hpos]
    have hle : correctCount (y_true.zip y_pred) ≤ y_true.length := by
      calc correctCount (y_true.zip y_pred) ≤ (y_true.zip y_pred).length :=
            correctCount_le _
        _ ≤ y_true.length := by rw [List.length_zip]; exact min_le_left _ _
    exact_mod_cast hle
  · intro h
    subst h
    simp [accuracy, h0, correctCount_self, div_self (ne_of_gt hpos)]

/-- Claim C9, witnessed on a concrete pair of label sequences. -/
theorem claim_C9_witness :
    (["spam", "ham"] : List String).length = (["spam", "spam"] : List String).length ∧
    (["spam", "ham"] : List String) ≠ [] ∧
    accuracy ["spam", "ham"] ["spam", "spam"] =
      some ((correctCount ((["spam", "ham"] : List String).zip ["spam", "spam"]) : ℚ) /
        ((["spam", "ham"] : List String).length : ℚ)) :=
  ⟨by decide, by decide,
    (claim_C9 ["spam", "ham"] ["spam", "spam"] (by decide) (by decide)).1⟩

/-- Claim C10: `accuracy` accepts unequal-length inputs: agreement is
counted over the first `min` length positions only (zip truncation)
while the divisor is always the truth length, appended extra
predictions beyond the truth length do not change the result, and the
call raises (returns `none`) iff the truth sequence is empty, even when
the prediction sequence is not. -/
theorem claim_C10 (y_true y_pred : List String) :
    (accuracy y_true y_pred = none ↔ y_true = []) ∧
    (y_true ≠ [] →
      accuracy y_true y_pred =
        some ((agreeAt y_true y_pred : ℚ) / (y_true.length : ℚ))) ∧
    ∀ extra : List String, y_true.length ≤ y_pred.length →
      accuracy y_true (y_pred ++ extra) = accuracy y_true y_pred := by
  refine ⟨?_, ?_, ?_⟩
  · by_cases h0 : y_true.length = 0
    · have he : y_true = [] := List.length_eq_zero.1 h0
      subst he
      simp [accuracy]
    · have hne : ¬ y_true = [] := fun hc => h0 (by rw [hc]; rfl)
      simp [accuracy, h0, hne]
  · intro hne
    have h0 : ¬ y_true.length = 0 := fun hc => hne (List.length_eq_zero.1 hc)
    rw [agreeAt_eq_correctCount]
    simp [accuracy, h0]
  · intro extra hle
    rw [accuracy, accuracy, zip_right_ext y_true y_pred extra hle]

/-- Claim C10, witnessed on unequal-length inputs: a three-element
truth sequence against a single prediction, and appended extra
predictions. -/
theorem claim_C10_witness :
    (["spam", "ham", "ham"] : List String) ≠ [] ∧
    accuracy ["spam", "ham", "ham"] ["spam"] =
      some ((agreeAt ["spam", "ham", "ham"] ["spam"] : ℚ) /
        ((["spam", "ham", "ham"] : List String).length : ℚ)) ∧
    (["spam"] : List String).length ≤ (["spam", "ham"] : List String).length ∧
    accuracy ["spam"] (["spam", "ham"] ++ ["ham"]) = accuracy ["spam"] ["spam", "ham"] :=
  ⟨by decide, (claim_C10 ["spam", "ham", "ham"] ["spam"]).2.1 (by decide), by decide,
    (claim_C10 ["spam"] ["spam", "ham"]).2.2 ["ham"] (by decide)⟩

/-- Claim C1 counterexample: training the same instance twice on the
batch `[{"a"}, {"b"}]` with labels `["spam", "ham"]` leaves
`spam_word_count["a"] = 2`, while a freshly constructed classifier
trained once on that batch alone holds `spam_word_count["a"] = 1`:
`train` does not fully overwrite the word-count state. -/
theorem claim_C1_cex :
    dlookupN (train (train init [["a"], ["b"]] ["spam", "ham"] false).state
        [["a"], ["b"]] ["spam", "ham"] false).state.spam_word_count "a" = 2 ∧
    dlookupN (train init [["a"], ["b"]] ["spam", "ham"] false).state.spam_word_count "a"
      = 1 := by
  decide

/-- Claim C1 as amended: on a non-empty batch, `train` overwrites the
scalar fields (`total_emails`, the class counts, the priors) with
values determined by the batch alone — equal to a fresh classifier's —
but `spam_word_count` and `ham_word_count` accumulate: each lookup
after the call equals the pre-call value plus the fresh value for that
batch; the vocabulary is then recomputed as the key union of the two
accumulated count dictionaries, and the conditional-probability maps
are recomputed over that vocabulary from the accumulated counts and
the new class counts (with the smoothed or unsmoothed formula as the
flag selects). -/
theorem claim_C1 (c : Classifier) (emails : List (List String)) (labels : List String)
    (s : Bool) (hne : emails ≠ []) :
    (∀ w : String,
      dlookupN (train c emails labels s).state.spam_word_count w =
        dlookupN c.spam_word_count w +
          dlookupN (train init emails labels s).state.spam_word_count w ∧
      dlookupN (train c emails labels s).state.ham_word_count w =
        dlookupN c.ham_word_count w +
          dlookupN (train init emails labels s).state.ham_word_count w) ∧
    (train c emails labels s).state.total_emails =
      (train init emails labels s).state.total_emails ∧
    (train c emails labels s).state.spam_email_count =
      (train init emails labels s).state.spam_email_count ∧
    (train c emails labels s).state.ham_email_count =
      (train init emails labels s).state.ham_email_count ∧
    (train c emails labels s).state.p_spam = (train init emails labels s).state.p_spam ∧
    (train c emails labels s).state.p_ham = (train init emails labels s).state.p_ham ∧
    (train c emails labels s).state.words =
      (dkeysN (train c emails labels s).state.spam_word_count ++
        dkeysN (train c emails labels s).state.ham_word_count).dedup ∧
    (s = true →
      ∀ w ∈ (train c emails labels s).state.words,
        dlookupQ (train c emails labels s).state.p_word_given_spam w =
          ((dlookupN (train c emails labels s).state.spam_word_count w : ℚ) + 1) /
            (((train c emails labels s).state.spam_email_count : ℚ) + 2) ∧
        dlookupQ (train c emails labels s).state.p_word_given_ham w =
          ((dlookupN (train c emails labels s).state.ham_word_count w : ℚ) + 1) /
            (((train c emails labels s).state.ham_email_count : ℚ) + 2)) ∧
    (s = false → countLabel labels "spam" ≠ 0 → countLabel labels "ham" ≠ 0 →
      ∀ w ∈ (train c emails labels s).state.words,
        dlookupQ (train c emails labels s).state.p_word_given_spam w =
          (dlookupN (train c emails labels s).state.spam_word_count w : ℚ) /
            ((train c emails labels s).state.spam_email_count : ℚ) ∧
        dlookupQ (train c emails labels s).state.p_word_given_ham w =
          (dlookupN (train c emails labels s).state.ham_word_count w : ℚ) /
            ((train c emails labels s).state.ham_email_count : ℚ)) := by
  have h0 : ¬ emails.length = 0 := fun hc => hne (List.length_eq_zero.1 hc)
  refine ⟨fun w => ⟨?_, ?_⟩, ?_, ?_, ?_, ?_, ?_, ?_, ?_, ?_⟩
  · rw [train_swc, train_swc]
    have hinit : dlookupN init.spam_word_count w = 0 := rfl
    rw [hinit]
    omega
  · rw [train_hwc, train_hwc]
    have hinit : dlookupN init.ham_word_count w = 0 := rfl
    rw [hinit]
    omega
  · rw [train_total, train_total]
  · rw [train_sec, train_sec]
  · rw [train_hec, train_hec]
  · rw [train_p_spam c emails labels s hne, train_p_spam init emails labels s hne]
  · rw [train_p_ham c emails labels s hne, train_p_ham init emails labels s hne]
  · exact train_words_keys c emails labels s h0
  · rintro rfl
    exact train_smooth_lookup c emails labels h0
  · rintro rfl hsec hhec
    exact (train_unsmooth_lookup c emails labels h0 hsec hhec).2

/-- Claim C1 as amended, witnessed: retraining the already-trained
scenario classifier on the batch `[{"a"}]`/`["spam"]` adds the fresh
counts onto the existing ones, recomputes the vocabulary as the key
union of the accumulated dictionaries, and recomputes the smoothed
probability of the old word `"buy"` from its accumulated count. -/
theorem claim_C1_witness :
    ([["a"]] : List (List String)) ≠ [] ∧
    dlookupN (train scenario.state [["a"]] ["spam"] true).state.spam_word_count "buy" =
      dlookupN scenario.state.spam_word_count "buy" +
        dlookupN (train init [["a"]] ["spam"] true).state.spam_word_count "buy" ∧
    (train scenario.state [["a"]] ["spam"] true).state.words =
      (dkeysN (train scenario.state [["a"]] ["spam"] true).state.spam_word_count ++
        dkeysN (train scenario.state [["a"]] ["spam"] true).state.ham_word_count).dedup ∧
    dlookupQ (train scenario.state [["a"]] ["spam"] true).state.p_word_given_spam "buy" =
      ((dlookupN (train scenario.state [["a"]] ["spam"] true).state.spam_word_count "buy"
          : ℚ) + 1) /
        (((train scenario.state [["a"]] ["spam"] true).state.spam_email_count : ℚ) + 2) :=
  ⟨by decide,
    ((claim_C1 scenario.state [["a"]] ["spam"] true (by decide)).1 "buy").1,
    (claim_C1 scenario.state [["a"]] ["spam"] true (by decide)).2.2.2.2.2.2.1,
    ((claim_C1 scenario.state [["a"]] ["spam"] true (by decide)).2.2.2.2.2.2.2.1 rfl "buy"
      (by decide)).1⟩

/-- Claim C4 counterexample: calling `train` with empty inputs on the
trained smoothed scenario classifier raises (a `ZeroDivisionError` at
the prior computation) yet overwrites `total_emails` from 2 to 0: the
observable state after the failed call differs from the state before
it. -/
theorem claim_C4_cex :
    (train scenarioSmooth.state [] [] false).raised = true ∧
    (train scenarioSmooth.state [] [] false).state.total_emails = 0 ∧
    scenarioSmooth.state.total_emails = 2 := by
  decide

/-- Claim C4 as amended: errors are local to a single call, but a
failing `train` is not state-preserving: the fields assigned before the
raising statement keep their new values.  On empty inputs the call
raises at the `p_spam` division after `total_emails`,
`spam_email_count` and `ham_email_count` were already overwritten
(with 0), while every field assigned later (priors, word counts,
probability maps, vocabulary) keeps its pre-call value. -/
theorem claim_C4 (c : Classifier) (s : Bool) :
    (train c [] [] s).raised = true ∧
    (train c [] [] s).state.total_emails = 0 ∧
    (train c [] [] s).state.spam_email_count = 0 ∧
    (train c [] [] s).state.ham_email_count = 0 ∧
    (train c [] [] s).state.p_spam = c.p_spam ∧
    (train c [] [] s).state.p_ham = c.p_ham ∧
    (train c [] [] s).state.spam_word_count = c.spam_word_count ∧
    (train c [] [] s).state.ham_word_count = c.ham_word_count ∧
    (train c [] [] s).state.p_word_given_spam = c.p_word_given_spam ∧
    (train c [] [] s).state.p_word_given_ham = c.p_word_given_ham ∧
    (train c [] [] s).state.words = c.words := by
  refine ⟨rfl, rfl, rfl, rfl, rfl, rfl, rfl, rfl, rfl, rfl, rfl⟩

/-- Claim C6 counterexample: with Laplace smoothing, training a fresh
classifier on the single spam document `["a", "a"]` (a repeated token,
as the spec's data model allows) gives
`p_word_given_spam["a"] = (2 + 1) / (1 + 2) = 1`, which does not lie
strictly in `(0, 1)`. -/
theorem claim_C6_cex :
    "a" ∈ (train init [["a", "a"]] ["spam"] true).state.words ∧
    dlookupQ (train init [["a", "a"]] ["spam"] true).state.p_word_given_spam "a" = 1 ∧
    ¬ dlookupQ (train init [["a", "a"]] ["spam"] true).state.p_word_given_spam "a" < 1 := by
  have h : dlookupQ (train init [["a", "a"]] ["spam"] true).state.p_word_given_spam "a"
      = 1 := by
    simp +decide [train, countLabel, countStep, addWords, dincr, dsetQ, dlookupN, dlookupQ,
      dkeysN, smoothLoop, init, List.dedup, List.pwFilter, List.foldl]
    norm_num
  exact ⟨by decide, h, by rw [h]; exact lt_irrefl 1⟩

/-- Claim C6 as amended: after training with Laplace smoothing, every
vocabulary word satisfies
`p_word_given_spam[w] = (spam_word_count[w] + 1) / (spam_email_count + 2)`
(analogously for ham) and both entries are strictly positive — in
particular words absent from a class get a probability strictly above
0; the strict upper bound `< 1` additionally requires that the
classifier is freshly constructed and no document repeats a token. -/
theorem claim_C6 (emails : List (List String)) (labels : List String) :
    (∀ w ∈ (train init emails labels true).state.words,
      dlookupQ (train init emails labels true).state.p_word_given_spam w =
        ((dlookupN (train init emails labels true).state.spam_word_count w : ℚ) + 1) /
          (((train init emails labels true).state.spam_email_count : ℚ) + 2) ∧
      dlookupQ (train init emails labels true).state.p_word_given_ham w =
        ((dlookupN (train init emails labels true).state.ham_word_count w : ℚ) + 1) /
          (((train init emails labels true).state.ham_email_count : ℚ) + 2) ∧
      0 < dlookupQ (train init emails labels true).state.p_word_given_spam w ∧
      0 < dlookupQ (train init emails labels true).state.p_word_given_ham w) ∧
    ((∀ d ∈ emails, d.Nodup) →
      ∀ w ∈ (train init emails labels true).state.words,
        dlookupQ (train init emails labels true).state.p_word_given_spam w < 1 ∧
        dlookupQ (train init emails labels true).state.p_word_given_ham w < 1) := by
  by_cases h0 : emails.length = 0
  · have he : emails = [] := List.length_eq_zero.1 h0
    subst he
    have hwords : (train init [] labels true).state.words = [] := rfl
    refine ⟨fun w hw => ?_, fun _ w hw => ?_⟩ <;> (rw [hwords] at hw; cases hw)
  · have htr := train_true_eq init emails labels h0
    have hfields := smoothLoop_fields (trainMid init emails labels).words
      (trainMid init emails labels)
    have hstate : (train init emails labels true).state =
        smoothLoop (trainMid init emails labels) (trainMid init emails labels).words := by
      rw [htr]
    have hwords : (train init emails labels true).state.words =
        (trainMid init emails labels).words := by
      rw [hstate]
      exact hfields.2.2.2.2.2.2.2
    have hswc : (train init emails labels true).state.spam_word_count =
        (trainMid init emails labels).spam_word_count := by
      rw [hstate]; exact hfields.1
    have hhwc : (train init emails labels true).state.ham_word_count =
        (trainMid init emails labels).ham_word_count := by
      rw [hstate]; exact hfields.2.1
    have hsec : (train init emails labels true).state.spam_email_count =
        (trainMid init emails labels).spam_email_count := by
      rw [hstate]; exact hfields.2.2.1
    have hhec : (train init emails labels true).state.ham_email_count =
        (trainMid init emails labels).ham_email_count := by
      rw [hstate]; exact hfields.2.2.2.1
    have hlooks : ∀ w ∈ (trainMid init emails labels).words,
        dlookupQ (train init emails labels true).state.p_word_given_spam w =
          ((dlookupN (trainMid init emails labels).spam_word_count w : ℚ) + 1) /
            (((trainMid init emails labels).spam_email_count : ℚ) + 2) ∧
        dlookupQ (train init emails labels true).state.p_word_given_ham w =
          ((dlookupN (trainMid init emails labels).ham_word_count w : ℚ) + 1) /
            (((trainMid init emails labels).ham_email_count : ℚ) + 2) := by
      intro w hw
      constructor
      · rw [hstate, smoothLoop_lookup_spam, if_pos hw]
      · rw [hstate, smoothLoop_lookup_ham, if_pos hw]
    have hposn : ∀ n k : ℕ, (0 : ℚ) < ((n : ℚ) + 1) / ((k : ℚ) + 2) := by
      intro n k
      apply div_pos
      · positivity
      · positivity
    refine ⟨fun w hw => ?_, fun hnodup w hw => ?_⟩
    · rw [hwords] at hw
      rcases hlooks w hw with ⟨h1, h2⟩
      rw [hswc, hhwc, hsec, hhec, h1, h2]
      exact ⟨rfl, rfl, hposn _ _, hposn _ _⟩
    · rw [hwords] at hw
      rcases hlooks w hw with ⟨h1, h2⟩
      have hms : dlookupN (trainMid init emails labels).spam_word_count w =
          spamOcc (emails.zip labels) w := by
        show dlookupN
          ((emails.zip labels).foldl countStep
            (init.spam_word_count, init.ham_word_count)).1 w = _
        rw [fold_countStep_fst]
        simp [init, dlookupN]
      have hmh : dlookupN (trainMid init emails labels).ham_word_count w =
          hamOcc (emails.zip labels) w := by
        show dlookupN
          ((emails.zip labels).foldl countStep
            (init.spam_word_count, init.ham_word_count)).2 w = _
        rw [fold_countStep_snd]
        simp [init, dlookupN]
      have hb1 : spamOcc (emails.zip labels) w ≤ countLabel labels "spam" :=
        spamOcc_le_countLabel emails labels w hnodup
      have hb2 : hamOcc (emails.zip labels) w ≤ countLabel labels "ham" :=
        hamOcc_le_countLabel emails labels w hnodup
      constructor
      · rw [h1, hms]
        rw [div_lt_one (by positivity)]
        have : spamOcc (emails.zip labels) w + 1 < countLabel labels "spam" + 2 := by omega
        exact_mod_cast this
      · rw [h2, hmh]
        rw [div_lt_one (by positivity)]
        have : hamOcc (emails.zip labels) w + 1 < countLabel labels "ham" + 2 := by omega
        exact_mod_cast this

/-- Claim C6 as amended, witnessed on the smoothed spec scenario:
`"buy"` is absent from the ham documents yet gets a smoothed ham
probability strictly between 0 and 1. -/
theorem claim_C6_witness :
    (∀ d ∈ ([["buy", "now"], ["hello", "friend"]] : List (List String)), d.Nodup) ∧
    "buy" ∈ (train init [["buy", "now"], ["hello", "friend"]] ["spam", "ham"] true).state.words ∧
    0 < dlookupQ (train init [["buy", "now"], ["hello", "friend"]]
      ["spam", "ham"] true).state.p_word_given_ham "buy" ∧
    dlookupQ (train init [["buy", "now"], ["hello", "friend"]]
      ["spam", "ham"] true).state.p_word_given_ham "buy" < 1 :=
  ⟨by decide, by decide,
    ((claim_C6 [["buy", "now"], ["hello", "friend"]] ["spam", "ham"]).1 "buy"
      (by decide)).2.2.2,
    ((claim_C6 [["buy", "now"], ["hello", "friend"]] ["spam", "ham"]).2 (by decide) "buy"
      (by decide)).2⟩

/-- Claim C7: after unsmoothed training on a batch with at least one
spam and one ham label, every vocabulary word satisfies
`p_word_given_spam[w] = spam_word_count[w] / spam_email_count` (the
class document count as denominator, not total word occurrences) and
analogously for ham, so a word absent from one class's training
documents gets conditional probability exactly 0 for that class; the
call completes without error. -/
theorem claim_C7 (emails : List (List String)) (labels : List String)
    (hlen : labels.length = emails.length)
    (hsp : "spam" ∈ labels) (hhm : "ham" ∈ labels) :
    (train init emails labels false).raised = false ∧
    ∀ w ∈ (train init emails labels false).state.words,
      dlookupQ (train init emails labels false).state.p_word_given_spam w =
        (dlookupN (train init emails labels false).state.spam_word_count w : ℚ) /
          ((train init emails labels false).state.spam_email_count : ℚ) ∧
      dlookupQ (train init emails labels false).state.p_word_given_ham w =
        (dlookupN (train init emails labels false).state.ham_word_count w : ℚ) /
          ((train init emails labels false).state.ham_email_count : ℚ) ∧
      ((∀ p ∈ emails.zip labels, p.2 = "spam" → w ∉ p.1) →
        dlookupQ (train init emails labels false).state.p_word_given_spam w = 0) ∧
      ((∀ p ∈ emails.zip labels, p.2 = "ham" → w ∉ p.1) →
        dlookupQ (train init emails labels false).state.p_word_given_ham w = 0) := by
  have hsec : countLabel labels "spam" ≠ 0 := (countLabel_pos labels _ hsp).ne'
  have hhec : countLabel labels "ham" ≠ 0 := (countLabel_pos labels _ hhm).ne'
  have hl0 : labels.length ≠ 0 := by
    intro hc
    rw [List.length_eq_zero.1 hc] at hsp
    cases hsp
  have h0 : ¬ emails.length = 0 := fun hc => hl0 (by rw [hlen, hc])
  have htr := train_false_eq init emails labels h0
  have hfields := unsmoothedLoop_fields (trainMid init emails labels).words
    (trainMid init emails labels)
  rcases unsmoothedLoop_ok (trainMid init emails labels).words (trainMid init emails labels)
    hsec hhec with ⟨hr, hlook⟩
  constructor
  · rw [htr]; exact hr
  · intro w hw
    rw [htr] at hw ⊢
    rw [hfields.2.2.2.2.2.2.2] at hw
    rcases hlook w with ⟨h1, h2⟩
    rw [if_pos hw] at h1 h2
    have hms : dlookupN (trainMid init emails labels).spam_word_count w =
        spamOcc (emails.zip labels) w := by
      show dlookupN
        ((emails.zip labels).foldl countStep
          (init.spam_word_count, init.ham_word_count)).1 w = _
      rw [fold_countStep_fst]
      simp [init, dlookupN]
    have hmh : dlookupN (trainMid init emails labels).ham_word_count w =
        hamOcc (emails.zip labels) w := by
      show dlookupN
        ((emails.zip labels).foldl countStep
          (init.spam_word_count, init.ham_word_count)).2 w = _
      rw [fold_countStep_snd]
      simp [init, dlookupN]
    refine ⟨?_, ?_, ?_, ?_⟩
    · rw [hfields.1, hfields.2.2.1, h1]
    · rw [hfields.2.1, hfields.2.2.2.1, h2]
    · intro habs
      rw [h1, hms, spamOcc_eq_zero (emails.zip labels) w habs]
      simp
    · intro habs
      rw [h2, hmh, hamOcc_eq_zero (emails.zip labels) w habs]
      simp

/-- Claim C7, witnessed on the spec scenario: `"hello"` never occurs in
a spam document, so its unsmoothed spam probability is exactly 0, and
the training call completes. -/
theorem claim_C7_witness :
    (["spam", "ham"] : List String).length =
      ([["buy", "now"], ["hello", "friend"]] : List (List String)).length ∧
    "spam" ∈ (["spam", "ham"] : List String) ∧
    "ham" ∈ (["spam", "ham"] : List String) ∧
    (train init [["buy", "now"], ["hello", "friend"]] ["spam", "ham"] false).raised
      = false ∧
    dlookupQ (train init [["buy", "now"], ["hello", "friend"]]
      ["spam", "ham"] false).state.p_word_given_spam "hello" = 0 :=
  ⟨by decide, by decide, by decide,
    (claim_C7 [["buy", "now"], ["hello", "friend"]] ["spam", "ham"]
      (by decide) (by decide) (by decide)).1,
    ((claim_C7 [["buy", "now"], ["hello", "friend"]] ["spam", "ham"]
      (by decide) (by decide) (by decide)).2 "hello" (by decide)).2.2.1 (by decide)⟩

/-- Claim C3 counterexample: on the unsmoothed spec scenario model,
`p_word_given_ham["buy"] = 0`, yet `predict` with
`prevent_underflow=true` on `[{"buy"}]` does not fail: `np.log(0)`
yields `-inf` (modelled as `⊥`) with only a runtime warning, the ham
score silently becomes `-inf`, and the call completes returning
`["spam"]`. -/
theorem claim_C3_cex :
    dlookupQ scenario.state.p_word_given_ham "buy" = 0 ∧
    "buy" ∈ scenario.state.words ∧
    (logScores scenario.state ["buy"]).2 = ⊥ ∧
    predict scenario.state [["buy"]] true = ["spam"] := by
  have ha : extLog ((1 : ℚ)/2) =
      ((Real.log (((1 : ℚ)/2 : ℚ) : ℝ) : ℝ) : WithBot ℝ) := by
    rw [extLog, if_neg (by norm_num)]
  have hb : extLog (1 : ℚ) = ((Real.log ((1 : ℚ) : ℝ) : ℝ) : WithBot ℝ) := by
    rw [extLog, if_neg one_ne_zero]
  have hpair : logScores scenario.state ["buy"] =
      (extLog ((1 : ℚ)/2) + extLog 1, extLog ((1 : ℚ)/2) + extLog 0) := by
    rw [scenario_state_eq]
    simp +decide [logScores, logStep, dlookupQ]
  have hbot : (logScores scenario.state ["buy"]).2 = ⊥ := by
    rw [hpair]
    rw [extLog_zero, WithBot.add_bot]
  have hgt : (logScores scenario.state ["buy"]).1 > (logScores scenario.state ["buy"]).2 := by
    rw [hpair]
    show extLog ((1 : ℚ)/2) + extLog 0 < extLog ((1 : ℚ)/2) + extLog 1
    rw [extLog_zero, WithBot.add_bot, ha, hb, ← WithBot.coe_add]
    exact WithBot.bot_lt_coe _
  refine ⟨?_, ?_, hbot, ?_⟩
  · rw [scenario_state_eq]
    simp [dlookupQ]
  · decide
  · rw [predict]
    simp only [if_pos]
    rw [List.map_cons, List.map_nil, classifyLog, if_pos hgt]

/-- Claim C3 as amended: when `prevent_underflow=true` and an
in-vocabulary word of a scored document has conditional probability
exactly 0 for the ham class, the log-mode call does not raise: the ham
score is the propagated negative infinity `⊥`, and `predict` still
completes, returning one `"spam"`/`"ham"` label per input document. -/
theorem claim_C3 (c : Classifier) (docs : List (List String)) (d : List String)
    (w : String) (hwd : w ∈ d) (hwv : w ∈ c.words)
    (h0 : dlookupQ c.p_word_given_ham w = 0) :
    (logScores c d).2 = ⊥ ∧
    (predict c docs true).length = docs.length ∧
    ∀ lab ∈ predict c docs true, lab = "spam" ∨ lab = "ham" := by
  refine ⟨foldl_logStep_snd_bot_of_zero c d w hwd hwv h0 _, ?_, ?_⟩
  · rw [predict]
    simp
  · intro lab hlab
    rw [predict] at hlab
    simp only [if_pos] at hlab
    rcases List.mem_map.1 hlab with ⟨e, _, rfl⟩
    rw [classifyLog]
    by_cases h : (logScores c e).1 > (logScores c e).2
    · left; rw [if_pos h]
    · right; rw [if_neg h]

/-- Claim C3 as amended, witnessed on the unsmoothed spec scenario. -/
theorem claim_C3_witness :
    "buy" ∈ (["buy"] : List String) ∧
    "buy" ∈ scenario.state.words ∧
    dlookupQ scenario.state.p_word_given_ham "buy" = 0 ∧
    (logScores scenario.state ["buy"]).2 = ⊥ :=
  ⟨by decide, by decide,
    by rw [scenario_state_eq]; simp [dlookupQ],
    (claim_C3 scenario.state [["buy"]] ["buy"] "buy" (by decide) (by decide)
      (by rw [scenario_state_eq]; simp [dlookupQ])).1⟩

/-- Claim C8: on a trained model whose priors are positive and whose
in-vocabulary conditional probabilities are all nonzero, log mode and
direct mode emit the same labels on every input. -/
theorem claim_C8 (c : Classifier) (hs : 0 < c.p_spam) (hh : 0 < c.p_ham)
    (hw : ∀ w ∈ c.words,
      0 < dlookupQ c.p_word_given_spam w ∧ 0 < dlookupQ c.p_word_given_ham w)
    (docs : List (List String)) :
    predict c docs true = predict c docs false := by
  have hfe : classifyLog c = classifyDirect c :=
    funext (classifyLog_eq_direct c hs hh hw)
  rw [predict, predict, hfe]
  simp

/-- Claim C8, witnessed on the smoothed spec scenario model, whose
probabilities are all nonzero. -/
theorem claim_C8_witness :
    0 < scenarioSmooth.state.p_spam ∧
    0 < dlookupQ scenarioSmooth.state.p_word_given_ham "buy" ∧
    predict scenarioSmooth.state [["buy", "now"]] true =
      predict scenarioSmooth.state [["buy", "now"]] false := by
  have hs : 0 < scenarioSmooth.state.p_spam := by
    rw [scenarioSmooth_state_eq]; norm_num
  have hh : 0 < scenarioSmooth.state.p_ham := by
    rw [scenarioSmooth_state_eq]; norm_num
  have hw : ∀ w ∈ scenarioSmooth.state.words,
      0 < dlookupQ scenarioSmooth.state.p_word_given_spam w ∧
      0 < dlookupQ scenarioSmooth.state.p_word_given_ham w := by
    rw [scenarioSmooth_state_eq]
    intro w hwm
    simp at hwm
    rcases hwm with rfl | rfl | rfl | rfl <;>
      exact ⟨by simp +decide [dlookupQ], by simp +decide [dlookupQ]⟩
  refine ⟨hs, ?_, claim_C8 scenarioSmooth.state hs hh hw [["buy", "now"]]⟩
  rw [scenarioSmooth_state_eq]
  simp +decide [dlookupQ]

end NaiveBayes
